import Mathlib

/-!
Shallow embedding of the sales-safa reporting dashboards (src/hilal.py,
src/stock.py, src/variance.py) and proofs about their metric-computation
and filtering pipeline.

Modelling conventions:
* A pandas DataFrame is a `Table`: a flag recording whether the `Category`
  column is present, the list of numeric column names (in order), and the
  rows.  Each row carries the value of the `Category` cell (`none` = NaN),
  the string-valued cells (item name / item code, as an association list
  keyed by column name; a key that is absent models a missing cell), and
  the numeric cells, positionally aligned with the table's `ncols`.
* Numbers are exact rationals `ℚ`.  Float division by zero produces
  inf, -inf or NaN in pandas; all three are represented by `none` in
  `floatDiv`, because the scripts immediately coerce every non-finite
  ratio to `0` (`replace([inf,-inf],0).fillna(0)` in hilal.py/stock.py,
  an explicit `if ... != 0 else 0` guard in variance.py).
* `Series.round(2)` is modelled by exact half-to-even rounding to two
  decimals (`round2`); no claim depends on the tie rule.
* File I/O (`pd.read_excel`) is modelled by passing the read result as an
  `Except String Table` parameter to the load functions.
-/

set_option maxRecDepth 10000

/-- value of one row's `Category` cell (`none` models a NaN cell), the
string-valued cells by column name, and the numeric cells aligned with
the table's numeric column list. -/
structure Row where
  cat : Option String
  texts : List (String × String)
  cells : List ℚ
deriving Repr, DecidableEq

/-- a DataFrame: whether the `Category` column exists, the numeric column
names in order, and the rows. -/
structure Table where
  hasCat : Bool
  ncols : List String
  rows : List Row
deriving Repr, DecidableEq

/-- the empty DataFrame `pd.DataFrame()`. -/
def emptyTable : Table := ⟨false, [], []⟩

/-- whether the first character list is an initial segment of the second. -/
def charsStartWith : List Char → List Char → Bool
  | [], _ => true
  | _ :: _, [] => false
  | p :: ps, c :: cs => p == c && charsStartWith ps cs

/-- whether `pat` occurs as a contiguous segment of the second list. -/
def charsContain (pat : List Char) : List Char → Bool
  | [] => charsStartWith pat []
  | c :: cs => charsStartWith pat (c :: cs) || charsContain pat cs

/-- substring containment test (`'Total Sales' in col` in Python). -/
def containsSubstr (s pat : String) : Bool := charsContain pat.data s.data

/-- ASCII lower-casing of one character. -/
def charLower (c : Char) : Char :=
  if 'A' ≤ c && c ≤ 'Z' then Char.ofNat (c.toNat + 32) else c

/-- ASCII lower-casing of a string (`str.lower()` in Python). -/
def lowerStr (s : String) : String := ⟨s.data.map charLower⟩

/-- whether `pat` is a final segment of `s`. -/
def charsEndWith (pat s : List Char) : Bool := charsStartWith pat.reverse s.reverse

/-- length of every row's numeric-cell list matches the column list
(DataFrames are rectangular). -/
def Table.WellFormed (t : Table) : Prop :=
  ∀ r ∈ t.rows, r.cells.length = t.ncols.length

instance (t : Table) : Decidable t.WellFormed := by
  unfold Table.WellFormed; infer_instance

/-- value of the first numeric column named `name` in a row, `0` when no
such column exists (used only where the scripts read a column they have
just written). -/
def getCell (ncols : List String) (name : String) (cells : List ℚ) : ℚ :=
  (((ncols.zip cells).find? (fun pc => pc.1 == name)).map (·.2)).getD 0

/-- the values of column `name` down a table (`df[name]`). -/
def getColVals (t : Table) (name : String) : List ℚ :=
  t.rows.map (fun r => getCell t.ncols name r.cells)

/-- DataFrame column assignment `df[name] = f(row)` computed row-wise:
overwrite in place when the column exists, append it otherwise. -/
def setColF (t : Table) (name : String) (f : Row → ℚ) : Table :=
  if name ∈ t.ncols then
    ⟨t.hasCat, t.ncols,
      t.rows.map fun r =>
        { r with cells := r.cells.set (t.ncols.findIdx (· == name)) (f r) }⟩
  else
    ⟨t.hasCat, t.ncols ++ [name],
      t.rows.map fun r => { r with cells := r.cells ++ [f r] }⟩

/-- row-wise sum of the columns whose name is in `sel`
(`df[sel].sum(axis=1)`); an empty selection sums to `0`. -/
def rowSumSel (ncols : List String) (sel : List String) (cells : List ℚ) : ℚ :=
  (((ncols.zip cells).filter (fun pc => sel.contains pc.1)).map (·.2)).sum

/-- column matcher of hilal.py/stock.py line 23/26: name contains the
substring `Total Sales`. -/
def hilalSalesPat (c : String) : Bool := containsSubstr c "Total Sales"

/-- column matcher of hilal.py/stock.py line 24/27: name contains the
substring `Total Profit`. -/
def hilalProfitPat (c : String) : Bool := containsSubstr c "Total Profit"

/-- exact half-to-even rounding to two decimals, modelling
`Series.round(2)`. -/
def round2 (x : ℚ) : ℚ :=
  let y : ℚ := x * 100
  let n : ℤ := ⌊y⌋
  let r : ℚ := y - n
  (if r < 1/2 then (n : ℚ)
   else if 1/2 < r then (n + 1 : ℤ)
   else if n % 2 = 0 then (n : ℚ) else (n + 1 : ℤ)) / 100

/-- float division: `none` stands for the non-finite results
(inf, -inf, NaN) that a zero denominator produces. -/
def floatDiv (p s : ℚ) : Option ℚ := if s = 0 then none else some (p / s)

/-- the `GP%` cell of hilal.py lines 28-30: `(profit/sales*100).round(2)`
with every non-finite result coerced to `0`
(`replace([inf,-inf],0).fillna(0)` folded into the cell computation). -/
def hilalGPcell (tp ts : ℚ) : ℚ :=
  ((floatDiv tp ts).map (fun q => round2 (q * 100))).getD 0

/-- the `GP` cell of variance.py lines 74-77 and 98-101:
`profit/sales if sales != 0 else 0`. -/
def varGPcell (tp ts : ℚ) : ℚ := if ts ≠ 0 then tp / ts else 0

/-- the shared three-assignment derivation core of both scripts:
`df['Total Sales'] = df[salesSel].sum(axis=1)`,
`df['Total Profit'] = df[profitSel].sum(axis=1)`, then the GP column
computed from the two freshly written columns (each right-hand side
evaluated against the DataFrame as it stands at that line). -/
def deriveThree (t : Table) (salesSel profitSel : List String)
    (gpName : String) (gpFun : ℚ → ℚ → ℚ) : Table :=
  let t1 := setColF t "Total Sales" (fun r => rowSumSel t.ncols salesSel r.cells)
  let t2 := setColF t1 "Total Profit" (fun r => rowSumSel t1.ncols profitSel r.cells)
  setColF t2 gpName (fun r =>
    gpFun (getCell t2.ncols "Total Profit" r.cells) (getCell t2.ncols "Total Sales" r.cells))

/-- derivation step of hilal.py `load_data` lines 21-30 (identical in
stock.py), assuming the `Category` column is present: fill missing
categories with `Unknown`, sum the name-matched sales and profit columns
row-wise into `Total Sales` / `Total Profit`, then compute `GP%` from the
two freshly written columns. -/
def hilalDeriveT (t : Table) : Table :=
  let t0 : Table :=
    ⟨t.hasCat, t.ncols,
      t.rows.map fun r => { r with cat := some (r.cat.getD "Unknown") }⟩
  deriveThree t0 (t0.ncols.filter hilalSalesPat) (t0.ncols.filter hilalProfitPat)
    "GP%" hilalGPcell

/-- hilal.py `load_data` body after a successful read: accessing
`df['Category']` on a table without that column raises an uncaught
`KeyError` (the `try` block only wraps `read_excel`), modelled as
`.error`; otherwise the derivation step runs. -/
def hilalDerive (t : Table) : Except String Table :=
  if t.hasCat then .ok (hilalDeriveT t) else .error "KeyError: 'Category'"

/-- hilal.py `load_data` lines 14-31 with the `pd.read_excel` result
passed in: a read failure is caught and an empty DataFrame returned. -/
def hilalLoad (readResult : Except String Table) : Except String Table :=
  match readResult with
  | .error _ => .ok emptyTable
  | .ok df => hilalDerive df

/-- Python `str(cell)` applied to a possibly-NaN Category cell:
`str(nan)` is the string `"nan"`. -/
def pyStr : Option String → String
  | none => "nan"
  | some s => s

/-- column matcher of variance.py line 56:
`re.search(r'(Total Sales|Total Profit)$', col, re.IGNORECASE)`,
i.e. a case-insensitive ends-with test. -/
def varMetricPat (c : String) : Bool :=
  charsEndWith "total sales".data (lowerStr c).data ||
  charsEndWith "total profit".data (lowerStr c).data

/-- the three distinct `st.error` messages that
`process_and_aggregate_data` can emit (lines 59, 81, 88). -/
inductive VarErr where
  | noMetricCols
  | noCategoryCol
  | noValidRows
deriving Repr, DecidableEq

/-- one row of `df_category_agg` (variance.py lines 92-101). -/
structure CatAgg where
  category : String
  total_Sales : ℚ
  total_Profit : ℚ
  gp : ℚ
deriving Repr, DecidableEq

/-- result of `process_and_aggregate_data`: the Python triple
`(df_clean, df_category_agg, metric_cols)` plus the `st.error` message
(if any) that the run emitted, recording which failure was surfaced. -/
structure VarResult where
  err : Option VarErr
  dfClean : Table
  dfAgg : List CatAgg
  metricCols : List String
deriving Repr, DecidableEq

/-- the category value used for grouping a cleaned row
(after `astype(str).str.strip()` every `cat` is `some s`). -/
def rowCat (r : Row) : String := r.cat.getD ""

/-- variance.py `process_and_aggregate_data` (lines 51-103): match metric
columns case-insensitively by suffix, derive `Total Sales`,
`Total Profit` and the guarded `GP` ratio, stringify-and-strip
`Category`, drop blank-category rows, and aggregate per category by
summing the totals and recomputing `GP` from the summed totals.
`pd.to_numeric(...).fillna(0)` on the metric columns is the identity
here because cells are modelled as already-numeric rationals; pandas
`groupby` sorts the group keys, which only permutes `dfAgg` and is
immaterial to the stated properties, so the distinct categories are
taken in order of last occurrence (`List.dedup`). -/
def varianceProcess (df : Table) : VarResult :=
  let metricCols := df.ncols.filter varMetricPat
  if metricCols = [] then ⟨some .noMetricCols, emptyTable, [], []⟩
  else
    let salesCols := metricCols.filter (fun c => containsSubstr c "Total Sales")
    let profitCols := metricCols.filter (fun c => containsSubstr c "Total Profit")
    let t3 := deriveThree df salesCols profitCols "GP" varGPcell
    if t3.hasCat = false then ⟨some .noCategoryCol, emptyTable, [], []⟩
    else
      let t4 : Table :=
        ⟨true, t3.ncols, t3.rows.map fun r => { r with cat := some ((pyStr r.cat).trim) }⟩
      let cleanRows := t4.rows.filter (fun r => rowCat r != "")
      if cleanRows = [] then ⟨some .noValidRows, emptyTable, [], []⟩
      else
        let clean : Table := ⟨true, t4.ncols, cleanRows⟩
        let keys := (cleanRows.map rowCat).dedup
        let agg := keys.map (fun c =>
          let grp := cleanRows.filter (fun r => rowCat r == c)
          let s := (grp.map (fun r => getCell clean.ncols "Total Sales" r.cells)).sum
          let p := (grp.map (fun r => getCell clean.ncols "Total Profit" r.cells)).sum
          ⟨c, s, p, varGPcell p s⟩)
        ⟨none, clean, agg, metricCols⟩

/-- column-name cleaning of variance.py `load_data` lines 39-41: strip
whitespace, then drop every character that is not alphanumeric, a space
(approximating the regex class `\s`) or a hyphen. -/
def cleanName (s : String) : String :=
  ⟨(s.trim.data.filter (fun c => c.isAlphanum || c = ' ' || c = '-'))⟩

/-- variance.py `load_data` (lines 27-49) with the file-read result
passed in: any read failure (including `FileNotFoundError`) is caught
and an empty DataFrame returned; on success the column names are
cleaned. -/
def varLoadData (readResult : Except String Table) : Table :=
  match readResult with
  | .error _ => emptyTable
  | .ok df =>
      ⟨df.hasCat, df.ncols.map cleanName,
        df.rows.map fun r => { r with texts := r.texts.map (fun kv => (cleanName kv.1, kv.2)) }⟩

/-- the GP% range test of hilal.py/stock.py lines 72-82: the `elif`
chain keeps a row according to the selected bucket; `"All"` and any
unrecognized selection leave the table unfiltered, so every row
passes. -/
def gpPass (sel : String) (gp : ℚ) : Bool :=
  if sel == "<5%" then decide (gp < 5)
  else if sel == "5-10%" then decide (5 ≤ gp) && decide (gp < 10)
  else if sel == "10-20%" then decide (10 ≤ gp) && decide (gp < 20)
  else if sel == "20-30%" then decide (20 ≤ gp) && decide (gp < 30)
  else if sel == "30%+" then decide (30 ≤ gp)
  else true

/-- the GP% bucket filter as applied in hilal.py lines 72-82: with `"All"`
selected the chain is skipped and the table returned untouched, otherwise
rows are kept per `gpPass` on their `GP%` cell. -/
def hilalGPFilter (sel : String) (t : Table) : Table :=
  if sel == "All" then t
  else ⟨t.hasCat, t.ncols, t.rows.filter (fun r => gpPass sel (getCell t.ncols "GP%" r.cells))⟩

/-- the user-selectable row predicates of hilal.py lines 61-82 and
variance.py lines 294-305: category equality, category exclusion,
GP%-bucket membership, and the case-insensitive text search
(`astype(str).str.lower().str.contains(pat)`; a missing text cell
stringifies to `"nan"`). -/
inductive RowPred where
  | catEq (c : String)
  | catNotIn (cs : List String)
  | gpBucket (sel : String)
  | textContains (col : String) (pat : String)
deriving Repr, DecidableEq

/-- row-level evaluation of one predicate against a table's columns. -/
def RowPred.eval (ncols : List String) : RowPred → Row → Bool
  | .catEq c => fun r => r.cat == some c
  | .catNotIn cs => fun r => !(r.cat.elim false (fun c => cs.contains c))
  | .gpBucket sel => fun r => gpPass sel (getCell ncols "GP%" r.cells)
  | .textContains col pat => fun r =>
      containsSubstr (lowerStr ((r.texts.lookup col).getD "nan")) (lowerStr pat)

/-- sequential application of the selected filters exactly as the
scripts do (`filtered_df = filtered_df[mask]` one predicate at a
time). -/
def applyPreds (ncols : List String) (ps : List RowPred) (rows : List Row) : List Row :=
  ps.foldl (fun acc p => acc.filter (p.eval ncols)) rows

/-- per-row `Total Sales` value the hilal deriver computes. -/
def hilalTS (t : Table) (r : Row) : ℚ :=
  rowSumSel t.ncols (t.ncols.filter hilalSalesPat) r.cells

/-- per-row `Total Profit` value the hilal deriver computes. -/
def hilalTP (t : Table) (r : Row) : ℚ :=
  rowSumSel t.ncols (t.ncols.filter hilalProfitPat) r.cells

/-- per-row `Total Sales` value the variance deriver computes. -/
def varTS (t : Table) (r : Row) : ℚ :=
  rowSumSel t.ncols
    ((t.ncols.filter varMetricPat).filter (fun c => containsSubstr c "Total Sales")) r.cells

/-- per-row `Total Profit` value the variance deriver computes. -/
def varTP (t : Table) (r : Row) : ℚ :=
  rowSumSel t.ncols
    ((t.ncols.filter varMetricPat).filter (fun c => containsSubstr c "Total Profit")) r.cells

/-- one row after the variance deriver and the Category stringify-strip
step: derived cells appended, category normalized. -/
def varRowDerive (t : Table) (r : Row) : Row :=
  ⟨some ((pyStr r.cat).trim), r.texts,
    r.cells ++ [varTS t r, varTP t r, varGPcell (varTP t r) (varTS t r)]⟩

/-- stock.py lines 112-117: the per-category value of the "Negative GP%"
chart, `filtered_df.groupby('Category')['GP%'].mean()` — the arithmetic
mean of the per-row `GP%` cells of each category (after `load_data`
every `Category` cell is a string, so grouping is on `rowCat`); the
subsequent `sort_values` only reorders the category rows and does not
change any group's value. -/
def stockGPByCategory (t : Table) : List (String × ℚ) :=
  ((t.rows.map rowCat).dedup).map (fun c =>
    let vals := (t.rows.filter (fun r => rowCat r == c)).map
      (fun r => getCell t.ncols "GP%" r.cells)
    (c, vals.sum / (vals.length : ℚ)))

section SanityChecks

example : containsSubstr "Jul-2025 Total Sales" "Total Sales" = true := by decide
example : containsSubstr "Total Profit" "Total Sales" = false := by decide
example : round2 (10/3) = 333/100 := by with_unfolding_all decide
example : round2 (1/8) = 12/100 := by with_unfolding_all decide
example : hilalGPcell 5 0 = 0 := by with_unfolding_all decide

end SanityChecks

/-! Basic lemmas about sequential predicate filtering. -/

lemma applyPreds_nil (ncols : List String) (rows : List Row) :
    applyPreds ncols [] rows = rows := rfl

lemma applyPreds_eq_filter_all (ncols : List String) (ps : List RowPred) (rows : List Row) :
    applyPreds ncols ps rows =
      rows.filter (fun r => ps.all (fun p => p.eval ncols r)) := by
  induction ps generalizing rows with
  | nil => simp [applyPreds]
  | cons p ps ih =>
      have h1 : applyPreds ncols (p :: ps) rows =
          applyPreds ncols ps (rows.filter (p.eval ncols)) := rfl
      rw [h1, ih, List.filter_filter]
      apply List.filter_congr
      intro r _
      simp [List.all_cons, Bool.and_comm]

lemma all_eq_of_perm {α : Type} {ps qs : List α} (h : ps.Perm qs) (f : α → Bool) :
    ps.all f = qs.all f := by
  cases hq : qs.all f
  · cases hp : ps.all f
    · rfl
    · exfalso
      rw [List.all_eq_true] at hp
      rw [Bool.eq_false_iff, Ne, List.all_eq_true] at hq
      exact hq (fun x hx => hp x (h.mem_iff.mpr hx))
  · rw [List.all_eq_true] at hq ⊢
    exact fun x hx => hq x (h.mem_iff.mp hx)

/-- C3: filtering with any permutation of a set of supported predicates
(category equality, category exclusion, GP-ratio bucket, text contains)
produces the same resulting rows, because the scripts' sequential
filters compute the conjunction of the predicates. -/
theorem predicate_filtering_order_independent
    (ncols : List String) (ps qs : List RowPred) (rows : List Row)
    (h : ps.Perm qs) :
    applyPreds ncols ps rows = applyPreds ncols qs rows := by
  rw [applyPreds_eq_filter_all, applyPreds_eq_filter_all]
  apply List.filter_congr
  intro r _
  exact all_eq_of_perm h _

/-- witness for C3 at a concrete table and a concrete permutation of
three predicates. -/
theorem predicate_filtering_order_independent_witness :
    applyPreds ["GP%"]
      [RowPred.catEq "A", RowPred.gpBucket "5-10%", RowPred.catNotIn ["B"]]
      [⟨some "A", [], [7]⟩, ⟨some "B", [], [7]⟩, ⟨some "A", [], [12]⟩] =
    applyPreds ["GP%"]
      [RowPred.gpBucket "5-10%", RowPred.catNotIn ["B"], RowPred.catEq "A"]
      [⟨some "A", [], [7]⟩, ⟨some "B", [], [7]⟩, ⟨some "A", [], [12]⟩] :=
  predicate_filtering_order_independent _ _ _ _ (by decide)

/-- C10: filtering only narrows: the filtered rows are a sublist of the
input rows (so every filtered row is an unchanged input row), and the
row count never grows; the scripts filter a copy (`df.copy()`), and the
embedding's `applyPreds` is a pure function of the base rows, which it
returns unchanged as a value. -/
theorem filtering_only_narrows
    (ncols : List String) (ps : List RowPred) (rows : List Row) :
    (applyPreds ncols ps rows).Sublist rows ∧
      (applyPreds ncols ps rows).length ≤ rows.length ∧
      ∀ r ∈ applyPreds ncols ps rows, r ∈ rows := by
  have hs : (applyPreds ncols ps rows).Sublist rows := by
    rw [applyPreds_eq_filter_all]; exact List.filter_sublist rows
  exact ⟨hs, hs.length_le, fun r hr => hs.mem hr⟩

/-- C4: the GP-ratio bucket filter implements the fixed five-bucket
partition with half-open intervals, lower bound inclusive, the top
bucket closed-ended at 30, and `"All"` selecting every row; on rows
derived from ratios 0.03, 0.07, 0.12 (profits 3, 7, 12 on sales 100)
the `"5-10%"` bucket keeps exactly the 0.07 row. -/
theorem gp_bucket_filter_partition :
    (∀ gp : ℚ,
      gpPass "<5%" gp = decide (gp < 5) ∧
      gpPass "5-10%" gp = (decide (5 ≤ gp) && decide (gp < 10)) ∧
      gpPass "10-20%" gp = (decide (10 ≤ gp) && decide (gp < 20)) ∧
      gpPass "20-30%" gp = (decide (20 ≤ gp) && decide (gp < 30)) ∧
      gpPass "30%+" gp = decide (30 ≤ gp) ∧
      gpPass "All" gp = true) ∧
    (∀ t : Table, hilalGPFilter "All" t = t) ∧
    hilalGPFilter "5-10%"
      (hilalDeriveT ⟨true, ["Oct-2025 Total Sales", "Oct-2025 Total Profit"],
        [⟨some "A", [], [100, 3]⟩, ⟨some "B", [], [100, 7]⟩, ⟨some "C", [], [100, 12]⟩]⟩) =
      ⟨true, ["Oct-2025 Total Sales", "Oct-2025 Total Profit",
              "Total Sales", "Total Profit", "GP%"],
        [⟨some "B", [], [100, 7, 100, 7, 7]⟩]⟩ := by
  refine ⟨fun gp => ⟨rfl, rfl, rfl, rfl, rfl, rfl⟩, fun t => rfl, ?_⟩
  with_unfolding_all decide

/-- C8: a missing source file or unparsable spreadsheet (any failing
read) makes both loaders return the explicit empty DataFrame — a table
with no columns and no rows, never a partially-initialized one. -/
theorem load_failure_returns_empty_table :
    (∀ msg : String, hilalLoad (.error msg) = .ok emptyTable) ∧
    (∀ msg : String, varLoadData (.error msg) = emptyTable) ∧
    emptyTable.ncols = [] ∧ emptyTable.rows = [] :=
  ⟨fun _ => rfl, fun _ => rfl, rfl, rfl⟩

lemma setColF_hasCat (t : Table) (name : String) (f : Row → ℚ) :
    (setColF t name f).hasCat = t.hasCat := by
  unfold setColF; split <;> rfl

lemma deriveThree_hasCat (t : Table) (salesSel profitSel : List String)
    (gpName : String) (gpFun : ℚ → ℚ → ℚ) :
    (deriveThree t salesSel profitSel gpName gpFun).hasCat = t.hasCat := by
  unfold deriveThree
  rw [setColF_hasCat, setColF_hasCat, setColF_hasCat]

/-- C9: when the `Category` column is entirely absent, hilal.py's loader
raises an uncaught `KeyError` (modelled as an `.error` result) — not the
caught file-read failure, which yields `.ok` with an empty table — and
variance.py's `process_and_aggregate_data` surfaces its dedicated
structural error message; neither defaults the column into existence. -/
theorem missing_category_structural_error :
    (∀ t : Table, t.hasCat = false → hilalDerive t = .error "KeyError: 'Category'") ∧
    (∀ (msg : String) (t : Table), t.hasCat = false →
        hilalDerive t ≠ hilalLoad (.error msg)) ∧
    (∀ t : Table, t.hasCat = false → t.ncols.filter varMetricPat ≠ [] →
        (varianceProcess t).err = some VarErr.noCategoryCol) := by
  refine ⟨fun t h => by simp [hilalDerive, h], ?_, ?_⟩
  · intro msg t h
    simp [hilalDerive, h, hilalLoad]
  · intro t h hm
    simp [varianceProcess, hm, deriveThree_hasCat, h]

/-- witness for C9 at a table that has a metric column but no `Category`
column. -/
theorem missing_category_structural_error_witness :
    hilalDerive ⟨false, ["Jul-2025 Total Sales"], []⟩ = .error "KeyError: 'Category'" ∧
    hilalDerive ⟨false, ["Jul-2025 Total Sales"], []⟩ ≠ hilalLoad (.error "no file") ∧
    (varianceProcess ⟨false, ["Jul-2025 Total Sales"], []⟩).err = some VarErr.noCategoryCol :=
  ⟨missing_category_structural_error.1 _ rfl,
   missing_category_structural_error.2.1 "no file" _ rfl,
   missing_category_structural_error.2.2 _ rfl (by decide)⟩

/-! Structural lemmas describing the derivation steps. -/

lemma setColF_not_mem (t : Table) (name : String) (f : Row → ℚ)
    (h : name ∉ t.ncols) :
    setColF t name f =
      ⟨t.hasCat, t.ncols ++ [name],
        t.rows.map fun r => { r with cells := r.cells ++ [f r] }⟩ := by
  unfold setColF; rw [if_neg h]

lemma setColF_not_mem_mk (hc : Bool) (nc : List String) (rs : List Row)
    (name : String) (f : Row → ℚ) (h : name ∉ nc) :
    setColF ⟨hc, nc, rs⟩ name f =
      ⟨hc, nc ++ [name], rs.map fun r => { r with cells := r.cells ++ [f r] }⟩ :=
  setColF_not_mem ⟨hc, nc, rs⟩ name f h

lemma rowSumSel_append (ncols extra sel : List String) (cells vals : List ℚ)
    (hlen : cells.length = ncols.length)
    (hextra : ∀ x ∈ extra, sel.contains x = false) :
    rowSumSel (ncols ++ extra) sel (cells ++ vals) = rowSumSel ncols sel cells := by
  unfold rowSumSel
  rw [List.zip_append hlen.symm, List.filter_append, List.map_append, List.sum_append]
  have hnil : (List.filter (fun pc => sel.contains pc.1) (extra.zip vals)) = [] := by
    rw [List.filter_eq_nil_iff]
    intro pc hpc
    have h1 := (List.of_mem_zip hpc).1
    rw [hextra pc.1 h1]
    simp
  rw [hnil]
  simp

lemma getCell_append (ncols extra : List String) (name : String) (cells vals : List ℚ)
    (hlen : cells.length = ncols.length) (h : name ∉ ncols) :
    getCell (ncols ++ extra) name (cells ++ vals) = getCell extra name vals := by
  unfold getCell
  rw [List.zip_append hlen.symm, List.find?_append]
  have hnone : List.find? (fun pc => pc.1 == name) (ncols.zip cells) = none := by
    rw [List.find?_eq_none]
    intro pc hpc
    have h1 := (List.of_mem_zip hpc).1
    simp only [beq_iff_eq]
    intro he
    exact h (he ▸ h1)
  rw [hnone, Option.none_or]

lemma getCell_cons_self (name : String) (ncols : List String) (v : ℚ) (cells : List ℚ) :
    getCell (name :: ncols) name (v :: cells) = v := by
  simp [getCell, List.find?]

lemma getCell_cons_ne (n name : String) (ncols : List String) (h : (n == name) = false)
    (v : ℚ) (cells : List ℚ) :
    getCell (n :: ncols) name (v :: cells) = getCell ncols name cells := by
  unfold getCell
  rw [List.zip_cons_cons, List.find?_cons_of_neg]
  rw [h]
  exact Bool.false_ne_true

/-- closed-form description of the shared three-assignment derivation
core on a rectangular table whose columns do not already include the
derived names and whose profit selection does not capture the freshly
written `Total Sales` column: the three derived columns are appended,
each row keeping its category, text cells and original numeric cells. -/
lemma deriveThree_eq (t : Table) (salesSel profitSel : List String)
    (gpName : String) (gpFun : ℚ → ℚ → ℚ) (hwf : t.WellFormed)
    (hs : "Total Sales" ∉ t.ncols) (hp : "Total Profit" ∉ t.ncols)
    (hgp : gpName ∉ t.ncols) (hgp1 : gpName ≠ "Total Sales")
    (hgp2 : gpName ≠ "Total Profit")
    (hsel : profitSel.contains "Total Sales" = false) :
    deriveThree t salesSel profitSel gpName gpFun =
      ⟨t.hasCat, t.ncols ++ ["Total Sales", "Total Profit", gpName],
        t.rows.map fun r =>
          ⟨r.cat, r.texts,
            r.cells ++ [rowSumSel t.ncols salesSel r.cells,
              rowSumSel t.ncols profitSel r.cells,
              gpFun (rowSumSel t.ncols profitSel r.cells)
                (rowSumSel t.ncols salesSel r.cells)]⟩⟩ := by
  have hTPne : ("Total Profit" : String) ≠ "Total Sales" := by decide
  have hp1 : "Total Profit" ∉ t.ncols ++ ["Total Sales"] := by
    intro hmem
    rcases List.mem_append.mp hmem with hmem | hmem
    · exact hp hmem
    · exact hTPne (List.mem_singleton.mp hmem)
  have hg2 : gpName ∉ t.ncols ++ ["Total Sales"] ++ ["Total Profit"] := by
    intro hmem
    rcases List.mem_append.mp hmem with hmem | hmem
    · rcases List.mem_append.mp hmem with hmem | hmem
      · exact hgp hmem
      · exact hgp1 (List.mem_singleton.mp hmem)
    · exact hgp2 (List.mem_singleton.mp hmem)
  simp only [deriveThree]
  rw [setColF_not_mem _ _ _ hs]
  try dsimp only
  rw [setColF_not_mem_mk _ _ _ _ _ hp1]
  try dsimp only
  rw [setColF_not_mem_mk _ _ _ _ _ hg2]
  try dsimp only
  refine Table.mk.injEq .. |>.mpr ⟨rfl, by simp, ?_⟩
  rw [List.map_map, List.map_map]
  apply List.map_congr_left
  intro r hr
  have hlen : r.cells.length = t.ncols.length := hwf r hr
  have hP : rowSumSel (t.ncols ++ ["Total Sales"]) profitSel
      (r.cells ++ [rowSumSel t.ncols salesSel r.cells]) =
        rowSumSel t.ncols profitSel r.cells := by
    rw [rowSumSel_append _ _ _ _ _ hlen]
    intro x hx
    rw [List.mem_singleton.mp hx]
    exact hsel
  have hgTP : getCell (t.ncols ++ ["Total Sales", "Total Profit"]) "Total Profit"
      (r.cells ++ [rowSumSel t.ncols salesSel r.cells,
        rowSumSel t.ncols profitSel r.cells]) =
      rowSumSel t.ncols profitSel r.cells := by
    rw [getCell_append _ _ _ _ _ hlen hp]
    rw [getCell_cons_ne _ _ _ (by decide)]
    exact getCell_cons_self _ _ _ _
  have hgTS : getCell (t.ncols ++ ["Total Sales", "Total Profit"]) "Total Sales"
      (r.cells ++ [rowSumSel t.ncols salesSel r.cells,
        rowSumSel t.ncols profitSel r.cells]) =
      rowSumSel t.ncols salesSel r.cells := by
    rw [getCell_append _ _ _ _ _ hlen hs]
    exact getCell_cons_self _ _ _ _
  simp only [Function.comp_apply, List.append_assoc, List.singleton_append,
    List.cons_append, List.nil_append]
  rw [hP, hgTP, hgTS]

/-- closed-form description of one hilal derivation pass on a
rectangular table whose columns do not already include the derived
names: the three derived columns are appended, each row keeping its
text cells and original numeric cells, and missing categories filled. -/
lemma hilalDeriveT_eq (t : Table) (hwf : t.WellFormed)
    (hs : "Total Sales" ∉ t.ncols) (hp : "Total Profit" ∉ t.ncols)
    (hg : "GP%" ∉ t.ncols) :
    hilalDeriveT t =
      ⟨t.hasCat, t.ncols ++ ["Total Sales", "Total Profit", "GP%"],
        t.rows.map fun r =>
          ⟨some (r.cat.getD "Unknown"), r.texts,
            r.cells ++ [hilalTS t r, hilalTP t r,
              hilalGPcell (hilalTP t r) (hilalTS t r)]⟩⟩ := by
  have hcontTS : (t.ncols.filter hilalProfitPat).contains "Total Sales" = false := by
    have hx : "Total Sales" ∉ t.ncols.filter hilalProfitPat :=
      fun hmem => hs (List.mem_of_mem_filter hmem)
    simpa using hx
  have hwf0 : Table.WellFormed
      ⟨t.hasCat, t.ncols,
        t.rows.map fun r => { r with cat := some (r.cat.getD "Unknown") }⟩ := by
    intro r hr
    rcases List.mem_map.mp hr with ⟨r0, hr0, rfl⟩
    exact hwf r0 hr0
  simp only [hilalDeriveT]
  try dsimp only
  rw [deriveThree_eq _ _ _ _ _ hwf0 hs hp hg (by decide) (by decide) hcontTS]
  refine Table.mk.injEq .. |>.mpr ⟨rfl, rfl, ?_⟩
  rw [List.map_map]
  apply List.map_congr_left
  intro r hr
  rfl

/-- the derived columns of one hilal pass, read back per row. -/
lemma hilalDeriveT_colvals (t : Table) (hwf : t.WellFormed)
    (hs : "Total Sales" ∉ t.ncols) (hp : "Total Profit" ∉ t.ncols)
    (hg : "GP%" ∉ t.ncols) :
    getColVals (hilalDeriveT t) "Total Sales" = t.rows.map (hilalTS t) ∧
    getColVals (hilalDeriveT t) "Total Profit" = t.rows.map (hilalTP t) ∧
    getColVals (hilalDeriveT t) "GP%" =
      t.rows.map (fun r => hilalGPcell (hilalTP t r) (hilalTS t r)) := by
  rw [hilalDeriveT_eq t hwf hs hp hg]
  unfold getColVals
  refine ⟨?_, ?_, ?_⟩ <;>
  · rw [List.map_map]
    apply List.map_congr_left
    intro r hr
    have hlen : r.cells.length = t.ncols.length := hwf r hr
    simp only [Function.comp_apply]
    rw [getCell_append _ _ _ _ _ hlen (by assumption)]
    repeat first
      | exact getCell_cons_self _ _ _ _
      | rw [getCell_cons_ne _ _ _ (by decide)]

/-- C1: whenever total sales is zero the gross-profit ratio equals the
defined fallback `0` — at the hilal `GP%` cell (where the non-finite
float result of dividing by zero is coerced to `0`), at the variance
`GP` cell (explicitly guarded), for every aggregated category row, and
for every derived row of a hilal table whose `Total Sales` cell is `0`;
the result type `ℚ` itself carries no NaN or infinity. -/
theorem zero_sales_gp_fallback_zero :
    (∀ tp : ℚ, hilalGPcell tp 0 = 0) ∧
    (∀ tp : ℚ, varGPcell tp 0 = 0) ∧
    (∀ t : Table, ∀ a ∈ (varianceProcess t).dfAgg, a.total_Sales = 0 → a.gp = 0) ∧
    (∀ t : Table, t.WellFormed →
      "Total Sales" ∉ t.ncols → "Total Profit" ∉ t.ncols → "GP%" ∉ t.ncols →
      ∀ i : Nat, (getColVals (hilalDeriveT t) "Total Sales")[i]? = some 0 →
        (getColVals (hilalDeriveT t) "GP%")[i]? = some 0) := by
  refine ⟨fun tp => by simp [hilalGPcell, floatDiv],
    fun tp => by simp [varGPcell], ?_, ?_⟩
  · intro t a ha h0
    simp only [varianceProcess] at ha
    split at ha
    · simp at ha
    · split at ha
      · simp at ha
      · split at ha
        · simp at ha
        · simp only at ha
          rcases List.mem_map.mp ha with ⟨c, hc, rfl⟩
          simp only at h0 ⊢
          rw [h0]
          simp [varGPcell]
  · intro t hwf hs hp hg i hTS
    have hcv := hilalDeriveT_colvals t hwf hs hp hg
    rw [hcv.1, List.getElem?_map] at hTS
    rw [hcv.2.2, List.getElem?_map]
    cases hrow : t.rows[i]? with
    | none => rw [hrow] at hTS; simp at hTS
    | some r =>
        rw [hrow] at hTS
        simp only [Option.map_some'] at hTS
        have h0 : hilalTS t r = 0 := Option.some_inj.mp hTS
        simp [h0, hilalGPcell, floatDiv]

/-- witness for C1 at concrete cells, a concrete aggregated table, and a
concrete derived table whose only row has zero sales. -/
theorem zero_sales_gp_fallback_zero_witness :
    hilalGPcell 7 0 = 0 ∧ varGPcell 7 0 = 0 ∧
    (⟨"S", 0, 0, 0⟩ : CatAgg).gp = 0 ∧
    (getColVals (hilalDeriveT ⟨true, ["Oct Total Sales", "Oct Total Profit"],
        [⟨some "A", [], [0, 0]⟩]⟩) "GP%")[0]? = some 0 :=
  ⟨zero_sales_gp_fallback_zero.1 7, zero_sales_gp_fallback_zero.2.1 7,
   zero_sales_gp_fallback_zero.2.2.1 ⟨true, ["Jul-2025 Total Sales"], [⟨some "S", [], [0]⟩]⟩
     ⟨"S", 0, 0, 0⟩ (by with_unfolding_all decide) rfl,
   zero_sales_gp_fallback_zero.2.2.2 _ (by decide) (by decide) (by decide) (by decide) 0
     (by with_unfolding_all decide)⟩

lemma rowSumSel_nil_sel (ncols : List String) (cells : List ℚ) :
    rowSumSel ncols [] cells = 0 := by
  unfold rowSumSel
  simp

/-- C6 counterexample: on a one-row table with no column matching the
metric pattern, variance.py's deriver does not succeed with totals 0 —
it reports the missing-metric-columns error and returns empty results,
dropping the row. -/
theorem variance_zero_matched_columns_fails :
    (varianceProcess ⟨true, ["Price"], [⟨some "A", [], [5]⟩]⟩).err =
        some VarErr.noMetricCols ∧
      (varianceProcess ⟨true, ["Price"], [⟨some "A", [], [5]⟩]⟩).dfClean.rows.length ≠
        (⟨true, ["Price"], [⟨some "A", [], [5]⟩]⟩ : Table).rows.length := by
  with_unfolding_all decide

/-- C6 amended: hilal's deriver tolerates zero matched period columns —
on a rectangular table (without pre-existing derived-column names) in
which no column name matches the sales or profit pattern it still
succeeds, keeping every row and defining `Total Sales` and
`Total Profit` as `0` for each; variance.py's deriver instead fails,
returning the missing-metric-columns error with empty results. -/
theorem zero_matched_columns_totals_zero
    (t : Table) (hwf : t.WellFormed)
    (hnos : ∀ c ∈ t.ncols, hilalSalesPat c = false)
    (hnop : ∀ c ∈ t.ncols, hilalProfitPat c = false)
    (hg : "GP%" ∉ t.ncols) :
    (hilalDeriveT t).rows.length = t.rows.length ∧
    getColVals (hilalDeriveT t) "Total Sales" = t.rows.map (fun _ => 0) ∧
    getColVals (hilalDeriveT t) "Total Profit" = t.rows.map (fun _ => 0) ∧
    ((∀ c ∈ t.ncols, varMetricPat c = false) →
      varianceProcess t = ⟨some VarErr.noMetricCols, emptyTable, [], []⟩) := by
  have hs : "Total Sales" ∉ t.ncols := by
    intro hmem
    have := hnos _ hmem
    rw [show hilalSalesPat "Total Sales" = true from by decide] at this
    exact absurd this (by decide)
  have hp : "Total Profit" ∉ t.ncols := by
    intro hmem
    have := hnop _ hmem
    rw [show hilalProfitPat "Total Profit" = true from by decide] at this
    exact absurd this (by decide)
  have hfs : t.ncols.filter hilalSalesPat = [] :=
    List.filter_eq_nil_iff.mpr (fun c hc => by rw [hnos c hc]; exact Bool.false_ne_true)
  have hfp : t.ncols.filter hilalProfitPat = [] :=
    List.filter_eq_nil_iff.mpr (fun c hc => by rw [hnop c hc]; exact Bool.false_ne_true)
  have hcv := hilalDeriveT_colvals t hwf hs hp hg
  refine ⟨?_, ?_, ?_, ?_⟩
  · rw [hilalDeriveT_eq t hwf hs hp hg]
    simp
  · rw [hcv.1]
    apply List.map_congr_left
    intro r _
    unfold hilalTS
    rw [hfs]
    exact rowSumSel_nil_sel _ _
  · rw [hcv.2.1]
    apply List.map_congr_left
    intro r _
    unfold hilalTP
    rw [hfp]
    exact rowSumSel_nil_sel _ _
  · intro hnom
    have hm : t.ncols.filter varMetricPat = [] :=
      List.filter_eq_nil_iff.mpr (fun c hc => by rw [hnom c hc]; exact Bool.false_ne_true)
    simp [varianceProcess, hm]

/-- witness for C6 at a concrete one-row table with a single
non-matching column. -/
theorem zero_matched_columns_totals_zero_witness :
    (hilalDeriveT ⟨true, ["Price"], [⟨some "A", [], [5]⟩]⟩).rows.length = 1 ∧
    getColVals (hilalDeriveT ⟨true, ["Price"], [⟨some "A", [], [5]⟩]⟩) "Total Sales" = [0] ∧
    getColVals (hilalDeriveT ⟨true, ["Price"], [⟨some "A", [], [5]⟩]⟩) "Total Profit" = [0] ∧
    varianceProcess ⟨true, ["Price"], [⟨some "A", [], [5]⟩]⟩ =
      ⟨some VarErr.noMetricCols, emptyTable, [], []⟩ := by
  have h := zero_matched_columns_totals_zero ⟨true, ["Price"], [⟨some "A", [], [5]⟩]⟩
    (by decide) (by decide) (by decide) (by decide)
  exact ⟨h.1, h.2.1, h.2.2.1, h.2.2.2 (by decide)⟩

/-! Partition lemmas: summing per-group sums over the distinct keys
recovers the total sum. -/

lemma sum_map_ite_zero (k : String) (v : ℚ) :
    ∀ ks : List String, k ∉ ks →
      (ks.map (fun c => if k == c then v else 0)).sum = 0 := by
  intro ks
  induction ks with
  | nil => intro _; rfl
  | cons c ks ih =>
      intro hk
      rw [List.map_cons, List.sum_cons, if_neg, ih (fun h => hk (List.mem_cons_of_mem c h))]
      · rw [add_zero]
      · simp only [beq_iff_eq]
        exact fun h => hk (h ▸ List.mem_cons_self c ks)

lemma sum_map_ite_key (k : String) (v : ℚ) :
    ∀ ks : List String, ks.Nodup → k ∈ ks →
      (ks.map (fun c => if k == c then v else 0)).sum = v := by
  intro ks
  induction ks with
  | nil => intro _ hk; cases hk
  | cons c ks ih =>
      intro hnd hk
      rw [List.nodup_cons] at hnd
      rw [List.map_cons, List.sum_cons]
      rcases List.mem_cons.mp hk with rfl | hk
      · rw [if_pos (by simp), sum_map_ite_zero k v ks hnd.1, add_zero]
      · rw [if_neg, ih hnd.2 hk, zero_add]
        simp only [beq_iff_eq]
        intro h
        exact hnd.1 (h ▸ hk)

lemma sum_groups_eq_total (key : Row → String) (f : Row → ℚ) :
    ∀ (rs : List Row) (ks : List String), ks.Nodup → (∀ r ∈ rs, key r ∈ ks) →
      (ks.map (fun c => ((rs.filter (fun r => key r == c)).map f).sum)).sum =
        (rs.map f).sum := by
  intro rs
  induction rs with
  | nil =>
      intro ks _ _
      simp only [List.filter_nil, List.map_nil, List.sum_nil]
      exact List.sum_eq_zero (by
        intro x hx
        rcases List.mem_map.mp hx with ⟨c, _, rfl⟩
        rfl)
  | cons r rs ih =>
      intro ks hnd hcov
      have hstep : ∀ c : String,
          (((r :: rs).filter (fun x => key x == c)).map f).sum =
            (if key r == c then f r else 0) +
              ((rs.filter (fun x => key x == c)).map f).sum := by
        intro c
        rw [List.filter_cons]
        split
        · rfl
        · rw [zero_add]
      rw [List.map_congr_left (fun c _ => hstep c), List.sum_map_add]
      rw [sum_map_ite_key (key r) (f r) ks hnd (hcov r (List.mem_cons_self r rs))]
      rw [ih ks hnd (fun x hx => hcov x (List.mem_cons_of_mem r hx))]
      rw [List.map_cons, List.sum_cons]

lemma catAgg_mk_gp (c : String) (s p : ℚ) (h : s ≠ 0) :
    (⟨c, s, p, varGPcell p s⟩ : CatAgg).gp =
      (⟨c, s, p, varGPcell p s⟩ : CatAgg).total_Profit /
        (⟨c, s, p, varGPcell p s⟩ : CatAgg).total_Sales := by
  show varGPcell p s = p / s
  unfold varGPcell
  rw [if_pos h]

/-- C5 counterexample: stock.py's cited aggregation (lines 112-120)
does average per-row ratios — on two same-category rows derived from
sales/profit pairs (100, 10) and (50, 1) (per-row GP% 10 and 2), the
`groupby('Category')['GP%'].mean()` value is 6, which differs from the
summed-totals ratio (10+1)/(100+50)·100 = 22/3. -/
theorem stock_category_gp_averages_row_ratios :
    stockGPByCategory (hilalDeriveT ⟨true, ["Oct Total Sales", "Oct Total Profit"],
        [⟨some "A", [], [100, 10]⟩, ⟨some "A", [], [50, 1]⟩]⟩) = [("A", 6)] ∧
    (6 : ℚ) ≠ (10 + 1) / (100 + 50) * 100 := by
  with_unfolding_all decide

/-- C5 amended: variance.py's Aggregator computes each group's GP ratio
from the summed totals — `totalProfit / totalSales` whenever the summed
sales are nonzero, never an average of per-row ratios — and its group
totals sum to the grand total of `Total Sales` over the cleaned table;
stock.py's per-category GP% chart value is instead the arithmetic mean
of the per-row GP% cells of the group. -/
theorem aggregator_ratio_from_summed_totals (t : Table) :
    (∀ a ∈ (varianceProcess t).dfAgg, a.total_Sales ≠ 0 →
        a.gp = a.total_Profit / a.total_Sales) ∧
    ((varianceProcess t).dfAgg.map CatAgg.total_Sales).sum =
      ((varianceProcess t).dfClean.rows.map
        (fun r => getCell (varianceProcess t).dfClean.ncols "Total Sales" r.cells)).sum ∧
    (∀ c gp, (c, gp) ∈ stockGPByCategory t →
      gp = (((t.rows.filter (fun r => rowCat r == c)).map
            (fun r => getCell t.ncols "GP%" r.cells)).sum /
          ((((t.rows.filter (fun r => rowCat r == c)).map
            (fun r => getCell t.ncols "GP%" r.cells)).length : ℚ)))) := by
  have hstock : ∀ c gp, (c, gp) ∈ stockGPByCategory t →
      gp = (((t.rows.filter (fun r => rowCat r == c)).map
            (fun r => getCell t.ncols "GP%" r.cells)).sum /
          ((((t.rows.filter (fun r => rowCat r == c)).map
            (fun r => getCell t.ncols "GP%" r.cells)).length : ℚ))) := by
    intro c gp hmem
    simp only [stockGPByCategory, List.mem_map] at hmem
    obtain ⟨c0, _, heq⟩ := hmem
    cases heq
    rfl
  refine ⟨?_, ?_, hstock⟩ <;> (
  simp only [varianceProcess]
  split)
  · exact fun a ha => by simp at ha
  · split
    · exact fun a ha => by simp at ha
    · split
      · exact fun a ha => by simp at ha
      · intro a ha hs0
        simp only at ha
        rcases List.mem_map.mp ha with ⟨c, hc, rfl⟩
        exact catAgg_mk_gp _ _ _ hs0
  · simp [emptyTable]
  · split
    · simp [emptyTable]
    · split
      · simp [emptyTable]
      · simp only
        rw [List.map_map]
        exact sum_groups_eq_total rowCat _ _ _ (List.nodup_dedup _)
          (fun r hr => List.mem_dedup.mpr (List.mem_map_of_mem rowCat hr))

/-- witness for C5: on a concrete one-row table the variance aggregate
for category `D` has its GP equal to summed profit over summed sales,
and on a concrete two-row derived table stock's category value for `A`
is the mean of the per-row GP% cells. -/
theorem aggregator_ratio_from_summed_totals_witness :
    ((⟨"D", 100, 20, 1/5⟩ : CatAgg).gp =
      (⟨"D", 100, 20, 1/5⟩ : CatAgg).total_Profit /
        (⟨"D", 100, 20, 1/5⟩ : CatAgg).total_Sales) ∧
    ((6 : ℚ) =
      ((((hilalDeriveT ⟨true, ["Oct Total Sales", "Oct Total Profit"],
            [⟨some "A", [], [100, 10]⟩, ⟨some "A", [], [50, 1]⟩]⟩).rows.filter
              (fun r => rowCat r == "A")).map
          (fun r => getCell (hilalDeriveT ⟨true, ["Oct Total Sales", "Oct Total Profit"],
            [⟨some "A", [], [100, 10]⟩, ⟨some "A", [], [50, 1]⟩]⟩).ncols "GP%" r.cells)).sum /
        (((((hilalDeriveT ⟨true, ["Oct Total Sales", "Oct Total Profit"],
            [⟨some "A", [], [100, 10]⟩, ⟨some "A", [], [50, 1]⟩]⟩).rows.filter
              (fun r => rowCat r == "A")).map
          (fun r => getCell (hilalDeriveT ⟨true, ["Oct Total Sales", "Oct Total Profit"],
            [⟨some "A", [], [100, 10]⟩, ⟨some "A", [], [50, 1]⟩]⟩).ncols "GP%" r.cells)).length : ℚ)))) :=
  ⟨(aggregator_ratio_from_summed_totals
      ⟨true, ["Jul-2025 Total Sales", "Jul-2025 Total Profit"],
        [⟨some "D", [], [100, 20]⟩]⟩).1
    ⟨"D", 100, 20, 1/5⟩ (by with_unfolding_all decide) (by with_unfolding_all decide),
   (aggregator_ratio_from_summed_totals
      (hilalDeriveT ⟨true, ["Oct Total Sales", "Oct Total Profit"],
        [⟨some "A", [], [100, 10]⟩, ⟨some "A", [], [50, 1]⟩]⟩)).2.2
    "A" 6 (by with_unfolding_all decide)⟩

/-- closed-form description of the cleaned table produced by
`process_and_aggregate_data` on a rectangular table with a `Category`
column, at least one matched metric column, no pre-existing
derived-column names, and at least one row whose stripped category is
nonblank: derived columns appended, exactly the blank-category rows
dropped. -/
lemma varianceProcess_clean (t : Table) (hwf : t.WellFormed)
    (hm : t.ncols.filter varMetricPat ≠ [])
    (hcat : t.hasCat = true)
    (hs : "Total Sales" ∉ t.ncols) (hp : "Total Profit" ∉ t.ncols)
    (hg : "GP" ∉ t.ncols)
    (hnz : t.rows.filter (fun r => (pyStr r.cat).trim != "") ≠ []) :
    (varianceProcess t).err = none ∧
    (varianceProcess t).dfClean =
      ⟨true, t.ncols ++ ["Total Sales", "Total Profit", "GP"],
        (t.rows.filter (fun r => (pyStr r.cat).trim != "")).map (varRowDerive t)⟩ := by
  have hcontTS : ((t.ncols.filter varMetricPat).filter
      (fun c => containsSubstr c "Total Profit")).contains "Total Sales" = false := by
    have hx : "Total Sales" ∉ (t.ncols.filter varMetricPat).filter
        (fun c => containsSubstr c "Total Profit") :=
      fun hmem => hs (List.mem_of_mem_filter (List.mem_of_mem_filter hmem))
    simpa using hx
  simp only [varianceProcess]
  rw [if_neg hm]
  rw [deriveThree_eq t _ _ _ _ hwf hs hp hg (by decide) (by decide) hcontTS]
  try dsimp only
  rw [if_neg (by simp [hcat])]
  rw [List.map_map]
  have hmaps : List.map
      ((fun r => { r with cat := some ((pyStr r.cat).trim) }) ∘ (fun r =>
        (⟨r.cat, r.texts,
          r.cells ++ [rowSumSel t.ncols
              ((t.ncols.filter varMetricPat).filter (fun c => containsSubstr c "Total Sales")) r.cells,
            rowSumSel t.ncols
              ((t.ncols.filter varMetricPat).filter (fun c => containsSubstr c "Total Profit")) r.cells,
            varGPcell
              (rowSumSel t.ncols
                ((t.ncols.filter varMetricPat).filter (fun c => containsSubstr c "Total Profit")) r.cells)
              (rowSumSel t.ncols
                ((t.ncols.filter varMetricPat).filter (fun c => containsSubstr c "Total Sales")) r.cells)]⟩ : Row)))
      t.rows = List.map (varRowDerive t) t.rows := rfl
  rw [hmaps]
  rw [List.filter_map]
  rw [if_neg (by
    intro hmap
    exact hnz (by simpa using List.map_eq_nil_iff.mp hmap))]
  exact ⟨rfl, rfl⟩

/-- C7 counterexample: variance.py's deriver does drop rows — a table
with a blank-category row comes back from `process_and_aggregate_data`
with fewer rows than it had. -/
theorem variance_drops_blank_category_rows :
    (varianceProcess ⟨true, ["Jul-2025 Total Sales"],
        [⟨some "", [], [5]⟩, ⟨some "A", [], [6]⟩]⟩).dfClean.rows.length ≠
      (⟨true, ["Jul-2025 Total Sales"],
        [⟨some "", [], [5]⟩, ⟨some "A", [], [6]⟩]⟩ : Table).rows.length := by
  with_unfolding_all decide

/-- C7 amended: on rectangular tables without pre-existing
derived-column names, the hilal deriver appends exactly the three
derived columns, drops no rows, and leaves every pre-existing numeric
and text cell unchanged (only missing `Category` cells are filled with
`Unknown`); the variance deriver likewise appends its three columns and
preserves pre-existing cells, but keeps only the rows whose stringified,
stripped `Category` is nonblank. -/
theorem deriver_appends_columns_preserves_cells :
    (∀ t : Table, t.WellFormed →
      "Total Sales" ∉ t.ncols → "Total Profit" ∉ t.ncols → "GP%" ∉ t.ncols →
      (hilalDeriveT t).ncols = t.ncols ++ ["Total Sales", "Total Profit", "GP%"] ∧
      (hilalDeriveT t).rows.length = t.rows.length ∧
      (hilalDeriveT t).rows.map (fun r => r.cells.take t.ncols.length) =
        t.rows.map Row.cells ∧
      (hilalDeriveT t).rows.map Row.texts = t.rows.map Row.texts) ∧
    (∀ t : Table, t.WellFormed →
      t.ncols.filter varMetricPat ≠ [] → t.hasCat = true →
      "Total Sales" ∉ t.ncols → "Total Profit" ∉ t.ncols → "GP" ∉ t.ncols →
      t.rows.filter (fun r => (pyStr r.cat).trim != "") ≠ [] →
      (varianceProcess t).dfClean.ncols =
        t.ncols ++ ["Total Sales", "Total Profit", "GP"] ∧
      (varianceProcess t).dfClean.rows.length =
        (t.rows.filter (fun r => (pyStr r.cat).trim != "")).length ∧
      (varianceProcess t).dfClean.rows.map (fun r => r.cells.take t.ncols.length) =
        (t.rows.filter (fun r => (pyStr r.cat).trim != "")).map Row.cells ∧
      (varianceProcess t).dfClean.rows.map Row.texts =
        (t.rows.filter (fun r => (pyStr r.cat).trim != "")).map Row.texts) := by
  constructor
  · intro t hwf hs hp hg
    rw [hilalDeriveT_eq t hwf hs hp hg]
    refine ⟨rfl, by simp, ?_, ?_⟩
    · rw [List.map_map]
      apply List.map_congr_left
      intro r hr
      have hlen : r.cells.length = t.ncols.length := hwf r hr
      simp only [Function.comp_apply]
      rw [← hlen]
      exact List.take_left _ _
    · rw [List.map_map]
      rfl
  · intro t hwf hm hcat hs hp hg hnz
    rw [(varianceProcess_clean t hwf hm hcat hs hp hg hnz).2]
    refine ⟨rfl, by simp, ?_, ?_⟩
    · rw [List.map_map]
      apply List.map_congr_left
      intro r hr
      have hlen : r.cells.length = t.ncols.length := hwf r (List.mem_of_mem_filter hr)
      simp only [Function.comp_apply]
      rw [← hlen]
      exact List.take_left _ _
    · rw [List.map_map]
      rfl

/-- witness for C7 at concrete tables: a one-row table for the hilal
part and a two-row table with one blank category for the variance
part. -/
theorem deriver_appends_columns_preserves_cells_witness :
    ((hilalDeriveT ⟨true, ["Oct Total Sales"], [⟨some "A", [], [5]⟩]⟩).ncols =
        ["Oct Total Sales"] ++ ["Total Sales", "Total Profit", "GP%"] ∧
      (hilalDeriveT ⟨true, ["Oct Total Sales"], [⟨some "A", [], [5]⟩]⟩).rows.length =
        (⟨true, ["Oct Total Sales"], [⟨some "A", [], [5]⟩]⟩ : Table).rows.length ∧
      (hilalDeriveT ⟨true, ["Oct Total Sales"], [⟨some "A", [], [5]⟩]⟩).rows.map
          (fun r => r.cells.take ["Oct Total Sales"].length) =
        (⟨true, ["Oct Total Sales"], [⟨some "A", [], [5]⟩]⟩ : Table).rows.map Row.cells ∧
      (hilalDeriveT ⟨true, ["Oct Total Sales"], [⟨some "A", [], [5]⟩]⟩).rows.map Row.texts =
        (⟨true, ["Oct Total Sales"], [⟨some "A", [], [5]⟩]⟩ : Table).rows.map Row.texts) ∧
    ((varianceProcess ⟨true, ["Jul-2025 Total Sales"],
          [⟨some "", [], [5]⟩, ⟨some "A", [], [6]⟩]⟩).dfClean.ncols =
        ["Jul-2025 Total Sales"] ++ ["Total Sales", "Total Profit", "GP"] ∧
      (varianceProcess ⟨true, ["Jul-2025 Total Sales"],
          [⟨some "", [], [5]⟩, ⟨some "A", [], [6]⟩]⟩).dfClean.rows.length =
        ((⟨true, ["Jul-2025 Total Sales"],
          [⟨some "", [], [5]⟩, ⟨some "A", [], [6]⟩]⟩ : Table).rows.filter
            (fun r => (pyStr r.cat).trim != "")).length ∧
      (varianceProcess ⟨true, ["Jul-2025 Total Sales"],
          [⟨some "", [], [5]⟩, ⟨some "A", [], [6]⟩]⟩).dfClean.rows.map
          (fun r => r.cells.take ["Jul-2025 Total Sales"].length) =
        ((⟨true, ["Jul-2025 Total Sales"],
          [⟨some "", [], [5]⟩, ⟨some "A", [], [6]⟩]⟩ : Table).rows.filter
            (fun r => (pyStr r.cat).trim != "")).map Row.cells ∧
      (varianceProcess ⟨true, ["Jul-2025 Total Sales"],
          [⟨some "", [], [5]⟩, ⟨some "A", [], [6]⟩]⟩).dfClean.rows.map Row.texts =
        ((⟨true, ["Jul-2025 Total Sales"],
          [⟨some "", [], [5]⟩, ⟨some "A", [], [6]⟩]⟩ : Table).rows.filter
            (fun r => (pyStr r.cat).trim != "")).map Row.texts) :=
  ⟨deriver_appends_columns_preserves_cells.1
      ⟨true, ["Oct Total Sales"], [⟨some "A", [], [5]⟩]⟩
      (by decide) (by decide) (by decide) (by decide),
    deriver_appends_columns_preserves_cells.2
      ⟨true, ["Jul-2025 Total Sales"], [⟨some "", [], [5]⟩, ⟨some "A", [], [6]⟩]⟩
      (by decide) (by decide) (by decide) (by decide) (by decide) (by decide)
      (by with_unfolding_all decide)⟩

/-! Lemmas for the second, overwriting derivation pass. -/

lemma setColF_mem_mk (hc : Bool) (nc : List String) (rs : List Row)
    (name : String) (f : Row → ℚ) (h : name ∈ nc) :
    setColF ⟨hc, nc, rs⟩ name f =
      ⟨hc, nc, rs.map fun r =>
        { r with cells := r.cells.set (nc.findIdx (· == name)) (f r) }⟩ := by
  unfold setColF; rw [if_pos h]

lemma list_set_append {α : Type} (l₁ : List α) (l₂ : List α) (n : Nat) (v : α) :
    (l₁ ++ l₂).set (l₁.length + n) v = l₁ ++ l₂.set n v := by
  induction l₁ with
  | nil => simp
  | cons a l₁ ih =>
      simp only [List.cons_append, List.length_cons]
      rw [Nat.succ_add, List.set_cons_succ, ih]

lemma findIdx_append_first {α : Type} (p : α → Bool) (l₁ l₂ : List α)
    (h : ∀ x ∈ l₁, p x = false) :
    (l₁ ++ l₂).findIdx p = l₁.length + l₂.findIdx p := by
  induction l₁ with
  | nil => simp
  | cons a l₁ ih =>
      simp only [List.cons_append, List.findIdx_cons,
        h a (List.mem_cons_self a l₁), cond_false, List.length_cons]
      rw [ih (fun x hx => h x (List.mem_cons_of_mem a hx)), Nat.succ_add]

lemma contains_append_eq_left {x : String} (sel selExtra : List String)
    (h : selExtra.contains x = false) :
    (sel ++ selExtra).contains x = sel.contains x := by
  cases hx : sel.contains x
  · simp only [List.contains, List.elem_eq_mem, decide_eq_true_eq,
      List.mem_append, decide_eq_false_iff_not] at *
    intro hmem
    rcases hmem with hmem | hmem
    · exact hx hmem
    · exact h hmem
  · simp only [List.contains, List.elem_eq_mem, decide_eq_true_eq,
      List.mem_append] at *
    exact Or.inl hx

lemma contains_append_eq_right {x : String} (sel selExtra : List String)
    (h : sel.contains x = false) :
    (sel ++ selExtra).contains x = selExtra.contains x := by
  cases hx : selExtra.contains x
  · simp only [List.contains, List.elem_eq_mem, decide_eq_true_eq,
      List.mem_append, decide_eq_false_iff_not] at *
    intro hmem
    rcases hmem with hmem | hmem
    · exact h hmem
    · exact hx hmem
  · simp only [List.contains, List.elem_eq_mem, decide_eq_true_eq,
      List.mem_append] at *
    exact Or.inr hx

/-- row-wise sum over a widened table with a widened selection splits
into the two independent sums when the name blocks are disjoint. -/
lemma rowSumSel_append₂ (ncols extra sel selExtra : List String)
    (cells vals : List ℚ) (hlen : cells.length = ncols.length)
    (h1 : ∀ x ∈ ncols, selExtra.contains x = false)
    (h2 : ∀ x ∈ extra, sel.contains x = false) :
    rowSumSel (ncols ++ extra) (sel ++ selExtra) (cells ++ vals) =
      rowSumSel ncols sel cells + rowSumSel extra selExtra vals := by
  unfold rowSumSel
  rw [List.zip_append hlen.symm, List.filter_append, List.map_append, List.sum_append]
  have e1 : List.filter (fun pc => (sel ++ selExtra).contains pc.1) (ncols.zip cells) =
      List.filter (fun pc => sel.contains pc.1) (ncols.zip cells) :=
    List.filter_congr (fun pc hpc =>
      contains_append_eq_left sel selExtra (h1 pc.1 (List.of_mem_zip hpc).1))
  have e2 : List.filter (fun pc => (sel ++ selExtra).contains pc.1) (extra.zip vals) =
      List.filter (fun pc => selExtra.contains pc.1) (extra.zip vals) :=
    List.filter_congr (fun pc hpc =>
      contains_append_eq_right sel selExtra (h2 pc.1 (List.of_mem_zip hpc).1))
  rw [e1, e2]

lemma list_set_append₀ {α : Type} (l₁ l₂ : List α) (v : α) :
    (l₁ ++ l₂).set l₁.length v = l₁ ++ l₂.set 0 v := by
  have h := list_set_append l₁ l₂ 0 v
  simp only [Nat.add_zero] at h
  exact h

lemma rowSumSel_triple_sales (a b c : ℚ) :
    rowSumSel ["Total Sales", "Total Profit", "GP%"] ["Total Sales"] [a, b, c] = a := by
  simp [rowSumSel]

lemma rowSumSel_triple_profit (a b c : ℚ) :
    rowSumSel ["Total Sales", "Total Profit", "GP%"] ["Total Profit"] [a, b, c] = b := by
  simp [rowSumSel]

lemma getCell_triple_sales (a b c : ℚ) :
    getCell ["Total Sales", "Total Profit", "GP%"] "Total Sales" [a, b, c] = a :=
  getCell_cons_self _ _ _ _

lemma getCell_triple_profit (a b c : ℚ) :
    getCell ["Total Sales", "Total Profit", "GP%"] "Total Profit" [a, b, c] = b := by
  rw [getCell_cons_ne _ _ _ (by decide)]
  exact getCell_cons_self _ _ _ _

lemma getCell_triple_gp (a b c : ℚ) :
    getCell ["Total Sales", "Total Profit", "GP%"] "GP%" [a, b, c] = c := by
  rw [getCell_cons_ne _ _ _ (by decide), getCell_cons_ne _ _ _ (by decide)]
  exact getCell_cons_self _ _ _ _

/-- doubling numerator and denominator leaves the guarded, rounded GP
cell unchanged. -/
lemma hilalGPcell_double (p s : ℚ) :
    hilalGPcell (p + p) (s + s) = hilalGPcell p s := by
  have h2 : p + p = 2 * p := (two_mul p).symm
  have h2s : s + s = 2 * s := (two_mul s).symm
  rw [h2, h2s]
  unfold hilalGPcell floatDiv
  by_cases hs : s = 0
  · simp [hs]
  · have hss : (2:ℚ) * s ≠ 0 := mul_ne_zero two_ne_zero hs
    rw [if_neg hss, if_neg hs]
    simp only [Option.map_some', Option.getD_some]
    congr 2
    rw [mul_div_mul_left p s two_ne_zero]

/-- closed-form description of a second hilal derivation pass: the
derived column names now match the patterns themselves, so the totals
columns are overwritten with doubled sums while the GP column is
recomputed to the same value. -/
lemma hilalDeriveT_twice_eq (t : Table) (hwf : t.WellFormed)
    (hs : "Total Sales" ∉ t.ncols) (hp : "Total Profit" ∉ t.ncols)
    (hg : "GP%" ∉ t.ncols) :
    hilalDeriveT (hilalDeriveT t) =
      ⟨t.hasCat, t.ncols ++ ["Total Sales", "Total Profit", "GP%"],
        t.rows.map fun r =>
          ⟨some (r.cat.getD "Unknown"), r.texts,
            r.cells ++ [hilalTS t r + hilalTS t r, hilalTP t r + hilalTP t r,
              hilalGPcell (hilalTP t r) (hilalTS t r)]⟩⟩ := by
  have hbTS : ∀ x ∈ t.ncols, (x == "Total Sales") = false :=
    fun x hx => beq_eq_false_iff_ne.mpr (fun h => hs (h ▸ hx))
  have hbTP : ∀ x ∈ t.ncols, (x == "Total Profit") = false :=
    fun x hx => beq_eq_false_iff_ne.mpr (fun h => hp (h ▸ hx))
  have hbTPx : ∀ x ∈ t.ncols ++ ["Total Sales"], (x == "Total Profit") = false := by
    intro x hx
    rcases List.mem_append.mp hx with hx | hx
    · exact hbTP x hx
    · rw [List.mem_singleton.mp hx]
      decide
  have hbGP : ∀ x ∈ t.ncols, (x == "GP%") = false :=
    fun x hx => beq_eq_false_iff_ne.mpr (fun h => hg (h ▸ hx))
  have hbGPx : ∀ x ∈ t.ncols ++ ["Total Sales", "Total Profit"], (x == "GP%") = false := by
    intro x hx
    rcases List.mem_append.mp hx with hx | hx
    · exact hbGP x hx
    · rcases List.mem_cons.mp hx with rfl | hx
      · decide
      · rw [List.mem_singleton.mp hx]
        decide
  have hidxTS : (t.ncols ++ ["Total Sales", "Total Profit", "GP%"]).findIdx
      (· == "Total Sales") = t.ncols.length := by
    rw [findIdx_append_first _ _ _ hbTS]
    rfl
  have hidxTP : (t.ncols ++ ["Total Sales", "Total Profit", "GP%"]).findIdx
      (· == "Total Profit") = t.ncols.length + 1 := by
    rw [findIdx_append_first _ _ _ hbTP]
    rfl
  have hidxGP : (t.ncols ++ ["Total Sales", "Total Profit", "GP%"]).findIdx
      (· == "GP%") = t.ncols.length + 2 := by
    rw [findIdx_append_first _ _ _ hbGP]
    rfl
  have hsalesN : (t.ncols ++ ["Total Sales", "Total Profit", "GP%"]).filter hilalSalesPat =
      t.ncols.filter hilalSalesPat ++ ["Total Sales"] := by
    rw [List.filter_append]
    rfl
  have hprofN : (t.ncols ++ ["Total Sales", "Total Profit", "GP%"]).filter hilalProfitPat =
      t.ncols.filter hilalProfitPat ++ ["Total Profit"] := by
    rw [List.filter_append]
    rfl
  have hTSmem : "Total Sales" ∈ t.ncols ++ ["Total Sales", "Total Profit", "GP%"] := by
    simp
  have hTPmem : "Total Profit" ∈ t.ncols ++ ["Total Sales", "Total Profit", "GP%"] := by
    simp
  have hGPmem : "GP%" ∈ t.ncols ++ ["Total Sales", "Total Profit", "GP%"] := by
    simp
  have hc1 : ∀ x ∈ t.ncols, (["Total Sales"] : List String).contains x = false := by
    intro x hx
    simp only [List.contains, List.elem_eq_mem, List.mem_singleton,
      decide_eq_false_iff_not]
    exact fun h => hs (h ▸ hx)
  have hc1p : ∀ x ∈ t.ncols, (["Total Profit"] : List String).contains x = false := by
    intro x hx
    simp only [List.contains, List.elem_eq_mem, List.mem_singleton,
      decide_eq_false_iff_not]
    exact fun h => hp (h ▸ hx)
  have hc2s : ∀ x ∈ ["Total Sales", "Total Profit", "GP%"],
      (t.ncols.filter hilalSalesPat).contains x = false := by
    intro x hx
    simp only [List.contains, List.elem_eq_mem, decide_eq_false_iff_not]
    intro hmem
    have hxn := List.mem_of_mem_filter hmem
    simp only [List.mem_cons, List.mem_singleton, List.not_mem_nil, or_false] at hx
    rcases hx with rfl | rfl | rfl
    · exact hs hxn
    · exact hp hxn
    · exact hg hxn
  have hc2p : ∀ x ∈ ["Total Sales", "Total Profit", "GP%"],
      (t.ncols.filter hilalProfitPat).contains x = false := by
    intro x hx
    simp only [List.contains, List.elem_eq_mem, decide_eq_false_iff_not]
    intro hmem
    have hxn := List.mem_of_mem_filter hmem
    simp only [List.mem_cons, List.mem_singleton, List.not_mem_nil, or_false] at hx
    rcases hx with rfl | rfl | rfl
    · exact hs hxn
    · exact hp hxn
    · exact hg hxn
  rw [hilalDeriveT_eq t hwf hs hp hg]
  simp only [hilalDeriveT]
  try dsimp only
  simp only [deriveThree]
  try dsimp only
  rw [setColF_mem_mk _ _ _ _ _ hTSmem]
  try dsimp only
  rw [setColF_mem_mk _ _ _ _ _ hTPmem]
  try dsimp only
  rw [setColF_mem_mk _ _ _ _ _ hGPmem]
  try dsimp only
  refine Table.mk.injEq .. |>.mpr ⟨rfl, rfl, ?_⟩
  rw [List.map_map, List.map_map, List.map_map, List.map_map]
  apply List.map_congr_left
  intro r hr
  have hlen : r.cells.length = t.ncols.length := hwf r hr
  simp only [Function.comp_apply]
  have hS1 : rowSumSel (t.ncols ++ ["Total Sales", "Total Profit", "GP%"])
      (List.filter hilalSalesPat (t.ncols ++ ["Total Sales", "Total Profit", "GP%"]))
      (r.cells ++ [hilalTS t r, hilalTP t r, hilalGPcell (hilalTP t r) (hilalTS t r)]) =
      hilalTS t r + hilalTS t r := by
    rw [hsalesN, rowSumSel_append₂ _ _ _ _ _ _ hlen hc1 hc2s, rowSumSel_triple_sales]
    rfl
  rw [hS1, hidxTS, ← hlen, list_set_append₀]
  simp only [List.set_cons_zero]
  have hS2 : rowSumSel (t.ncols ++ ["Total Sales", "Total Profit", "GP%"])
      (List.filter hilalProfitPat (t.ncols ++ ["Total Sales", "Total Profit", "GP%"]))
      (r.cells ++ [hilalTS t r + hilalTS t r, hilalTP t r,
        hilalGPcell (hilalTP t r) (hilalTS t r)]) =
      hilalTP t r + hilalTP t r := by
    rw [hprofN, rowSumSel_append₂ _ _ _ _ _ _ hlen hc1p hc2p, rowSumSel_triple_profit]
    rfl
  rw [hS2, hidxTP, ← hlen, list_set_append]
  simp only [List.set_cons_succ, List.set_cons_zero]
  have hGTP : getCell (t.ncols ++ ["Total Sales", "Total Profit", "GP%"]) "Total Profit"
      (r.cells ++ [hilalTS t r + hilalTS t r, hilalTP t r + hilalTP t r,
        hilalGPcell (hilalTP t r) (hilalTS t r)]) =
      hilalTP t r + hilalTP t r := by
    rw [getCell_append _ _ _ _ _ hlen hp]
    exact getCell_triple_profit _ _ _
  have hGTS : getCell (t.ncols ++ ["Total Sales", "Total Profit", "GP%"]) "Total Sales"
      (r.cells ++ [hilalTS t r + hilalTS t r, hilalTP t r + hilalTP t r,
        hilalGPcell (hilalTP t r) (hilalTS t r)]) =
      hilalTS t r + hilalTS t r := by
    rw [getCell_append _ _ _ _ _ hlen hs]
    exact getCell_triple_sales _ _ _
  rw [hGTP, hGTS, hilalGPcell_double, hidxGP, ← hlen, list_set_append]
  simp only [List.set_cons_succ, List.set_cons_zero, Option.getD_some]

/-- C2 counterexample: the derivation step is not idempotent — on a
one-row table with one monthly sales column worth `1`, a second
application changes the `Total Sales` column (the derived column itself
matches the name pattern and is re-summed). -/
theorem metric_deriver_not_idempotent :
    getColVals (hilalDeriveT (hilalDeriveT
        ⟨true, ["Jul-2025 Total Sales"], [⟨some "A", [], [1]⟩]⟩)) "Total Sales" ≠
      getColVals (hilalDeriveT
        ⟨true, ["Jul-2025 Total Sales"], [⟨some "A", [], [1]⟩]⟩) "Total Sales" := by
  with_unfolding_all decide

/-- the derived columns of a second hilal pass, read back per row. -/
lemma hilalDeriveT_twice_colvals (t : Table) (hwf : t.WellFormed)
    (hs : "Total Sales" ∉ t.ncols) (hp : "Total Profit" ∉ t.ncols)
    (hg : "GP%" ∉ t.ncols) :
    getColVals (hilalDeriveT (hilalDeriveT t)) "Total Sales" =
      t.rows.map (fun r => hilalTS t r + hilalTS t r) ∧
    getColVals (hilalDeriveT (hilalDeriveT t)) "Total Profit" =
      t.rows.map (fun r => hilalTP t r + hilalTP t r) ∧
    getColVals (hilalDeriveT (hilalDeriveT t)) "GP%" =
      t.rows.map (fun r => hilalGPcell (hilalTP t r) (hilalTS t r)) := by
  rw [hilalDeriveT_twice_eq t hwf hs hp hg]
  unfold getColVals
  refine ⟨?_, ?_, ?_⟩ <;>
  · rw [List.map_map]
    apply List.map_congr_left
    intro r hr
    have hlen : r.cells.length = t.ncols.length := hwf r hr
    simp only [Function.comp_apply]
    rw [getCell_append _ _ _ _ _ hlen (by assumption)]
    repeat first
      | exact getCell_cons_self _ _ _ _
      | rw [getCell_cons_ne _ _ _ (by decide)]

/-- C2 amended: the Metric Deriver is not idempotent on the totals
columns — because the appended `Total Sales` / `Total Profit` columns
themselves match the column-name patterns (in hilal's substring matcher
and in variance's case-insensitive suffix matcher alike), a second
application doubles both totals columns; only the GP-ratio column is
reproduced unchanged. -/
theorem metric_deriver_second_pass_doubles_totals (t : Table)
    (hwf : t.WellFormed) (hs : "Total Sales" ∉ t.ncols)
    (hp : "Total Profit" ∉ t.ncols) (hg : "GP%" ∉ t.ncols) :
    getColVals (hilalDeriveT (hilalDeriveT t)) "GP%" =
      getColVals (hilalDeriveT t) "GP%" ∧
    getColVals (hilalDeriveT (hilalDeriveT t)) "Total Sales" =
      (getColVals (hilalDeriveT t) "Total Sales").map (fun q => 2 * q) ∧
    getColVals (hilalDeriveT (hilalDeriveT t)) "Total Profit" =
      (getColVals (hilalDeriveT t) "Total Profit").map (fun q => 2 * q) ∧
    varMetricPat "Total Sales" = true ∧ varMetricPat "Total Profit" = true := by
  have hcv := hilalDeriveT_colvals t hwf hs hp hg
  have hcv2 := hilalDeriveT_twice_colvals t hwf hs hp hg
  refine ⟨?_, ?_, ?_, by decide, by decide⟩
  · rw [hcv2.2.2, hcv.2.2]
  · rw [hcv2.1, hcv.1, List.map_map]
    apply List.map_congr_left
    intro r _
    simp only [Function.comp_apply]
    rw [two_mul]
  · rw [hcv2.2.1, hcv.2.1, List.map_map]
    apply List.map_congr_left
    intro r _
    simp only [Function.comp_apply]
    rw [two_mul]

/-- witness for C2's amended statement at a concrete one-row table. -/
theorem metric_deriver_second_pass_doubles_totals_witness :
    getColVals (hilalDeriveT (hilalDeriveT
        ⟨true, ["Jul-2025 Total Sales"], [⟨some "A", [], [1]⟩]⟩)) "GP%" =
      getColVals (hilalDeriveT
        ⟨true, ["Jul-2025 Total Sales"], [⟨some "A", [], [1]⟩]⟩) "GP%" ∧
    getColVals (hilalDeriveT (hilalDeriveT
        ⟨true, ["Jul-2025 Total Sales"], [⟨some "A", [], [1]⟩]⟩)) "Total Sales" =
      (getColVals (hilalDeriveT
        ⟨true, ["Jul-2025 Total Sales"], [⟨some "A", [], [1]⟩]⟩) "Total Sales").map
          (fun q => 2 * q) ∧
    getColVals (hilalDeriveT (hilalDeriveT
        ⟨true, ["Jul-2025 Total Sales"], [⟨some "A", [], [1]⟩]⟩)) "Total Profit" =
      (getColVals (hilalDeriveT
        ⟨true, ["Jul-2025 Total Sales"], [⟨some "A", [], [1]⟩]⟩) "Total Profit").map
          (fun q => 2 * q) ∧
    varMetricPat "Total Sales" = true ∧ varMetricPat "Total Profit" = true :=
  metric_deriver_second_pass_doubles_totals
    ⟨true, ["Jul-2025 Total Sales"], [⟨some "A", [], [1]⟩]⟩
    (by decide) (by decide) (by decide) (by decide)
